import Mathlib

/-!
Verification of the execlib task-execution library against its specification.

The repository ships three snapshots of the execution engine:
* the `queue`-based executor (`executor.cpp`): `queue::get_job` pops the front,
  `queue::put_job` pushes the back, `worker_thread::steal_jobs(dst, src)` moves
  the *front* `size/2` entries of the victim into the thief's back
  (threshold 2), and the victim scan walks `index+1 .. n-1` then `0 .. index-1`;
* the `thread_data`-based executor (`executor_internals_private.hpp` part):
  `steal_jobs(dst, src)` moves the *back* `size - size/2` entries
  (threshold 8), same scan order;
* the global execution engine (`mutex.cpp` part): `steal_task` scans
  `index, index+1, ..` modulo `thread_count` (so the thief's own queue is the
  first candidate, threshold 4) and moves the back `size/2` entries.

Jobs are represented by natural-number identifiers; a FIFO is a `List Nat`
whose head is the deque front.  Mutex addresses are natural numbers; the
thread-local locked-mutex table (`std::multiset` ordered by address) is a
sorted `List Nat`.
-/

namespace Execlib

/-! ## Work stealing: the transfer step of each variant -/

/-- `executor::worker_thread::steal_jobs(queue* dst, queue* src)`
(executor.cpp:142-162): if the source has fewer than 2 jobs fail; otherwise
move the range `[begin, begin + size/2)` — the *front* half — of the source
into the back of the destination.  Returns (dst', src', succeeded). -/
def steal_jobs_queue (dst src : List Nat) : List Nat × List Nat × Bool :=
  if src.length < 2 then (dst, src, false)
  else (dst ++ src.take (src.length / 2), src.drop (src.length / 2), true)

/-- `executor::steal_jobs(thread_data& dst, thread_data& src)`
(executor_internals_private.hpp:177-196): if the source has fewer than 8 jobs
fail; otherwise move the range `[begin + size/2, end)` — the *back* half —
of the source into the back of the destination. -/
def steal_jobs_td (dst src : List Nat) : List Nat × List Nat × Bool :=
  if src.length < 8 then (dst, src, false)
  else (dst ++ src.drop (src.length / 2), src.take (src.length / 2), true)

/-- The transfer step of `steal_task` (mutex.cpp:170-207): if the other
thread's queue has fewer than `MIN_QUEUE_SIZE_TO_STEAL = 4` tasks fail;
otherwise move the last `size/2` entries — `[end - size/2, end)` —
of the other queue into the back of this thread's queue. -/
def steal_task_transfer (thr other : List Nat) : List Nat × List Nat × Bool :=
  if other.length < 4 then (thr, other, false)
  else
    (thr ++ other.drop (other.length - other.length / 2),
     other.take (other.length - other.length / 2), true)

/-! ## Work stealing: the victim scan order of each variant -/

/-- Victim scan of `executor::worker_thread::steal_jobs(queue* q)`
(executor.cpp:165-176): indices `q->m_index + 1 .. n-1`, then `0 .. q->m_index - 1`. -/
def steal_scan_queue (i n : Nat) : List Nat :=
  List.range' (i + 1) (n - (i + 1)) ++ List.range i

/-- Victim scan of `executor::steal_jobs(size_t thread_index)`
(executor_internals_private.hpp:155-173): indices `thread_index + 1 .. n-1`,
then `0 .. thread_index - 1`. -/
def steal_scan_td (i n : Nat) : List Nat :=
  List.range' (i + 1) (n - (i + 1)) ++ List.range i

/-- Candidate scan of `steal_task` (mutex.cpp:170-207): the loop
`for (i = thread_index; i < thread_index + thread_count; ++i)` examines
`threads[i % thread_count]`, i.e. the indices
`(thread_index + k) % n` for `k = 0 .. n-1`; the thief's own index comes first. -/
def steal_task_scan (tidx n : Nat) : List Nat :=
  (List.range n).map (fun k => (tidx + k) % n)

/-! ## Claims C1, C6, C10: stealing -/

/-- C1 counterexample: in the `queue` variant (executor.cpp:142-162) a
successful steal from victim FIFO `[0,1,2,3]` (front = oldest, since
`put_job` pushes the back and `get_job` pops the front) moves `[0,1]` —
the *front* (older) half — into the empty thief, not the back half `[2,3]`
that the claim requires. -/
theorem steal_queue_moves_front_half_cex :
    (steal_jobs_queue [] [0, 1, 2, 3]).2.2 = true ∧
    (steal_jobs_queue [] [0, 1, 2, 3]).1 ≠ [2, 3] := by decide

/-- C1 (amended): every successful steal moves a contiguous half of the
victim's FIFO into the back of the thief's FIFO.  For every victim meeting
the `queue` variant's success threshold (2, executor.cpp:147) that variant
moves the front (older) half; for every victim meeting the `thread_data`
variant's success threshold (8, executor_internals_private.hpp:182) that
variant moves the back (newer) half.  Each hypothesis is exactly the
variant's success condition, so all successful steals are covered. -/
theorem steal_moved_halves (d₁ s₁ d₂ s₂ : List Nat)
    (h₁ : 2 ≤ s₁.length) (h₂ : 8 ≤ s₂.length) :
    (∃ front back, s₁ = front ++ back ∧ front.length = s₁.length / 2 ∧
      steal_jobs_queue d₁ s₁ = (d₁ ++ front, back, true))
  ∧ (∃ front back, s₂ = front ++ back ∧ front.length = s₂.length / 2 ∧
      steal_jobs_td d₂ s₂ = (d₂ ++ back, front, true)) := by
  constructor
  · refine ⟨s₁.take (s₁.length / 2), s₁.drop (s₁.length / 2),
      (List.take_append_drop _ _).symm, ?_, ?_⟩
    · rw [List.length_take]
      exact Nat.min_eq_left (Nat.div_le_self _ _)
    · unfold steal_jobs_queue
      rw [if_neg (by omega)]
  · refine ⟨s₂.take (s₂.length / 2), s₂.drop (s₂.length / 2),
      (List.take_append_drop _ _).symm, ?_, ?_⟩
    · rw [List.length_take]
      exact Nat.min_eq_left (Nat.div_le_self _ _)
    · unfold steal_jobs_td
      rw [if_neg (by omega)]

/-- C1 witness: the amended statement evaluated on the counterexample's own
size-4 victim for the `queue` variant and a size-8 victim for the
`thread_data` variant. -/
theorem steal_moved_halves_witness :
    (∃ front back, ([0, 1, 2, 3] : List Nat) = front ++ back ∧
      front.length = ([0, 1, 2, 3] : List Nat).length / 2 ∧
      steal_jobs_queue [9] [0, 1, 2, 3] = ([9] ++ front, back, true))
  ∧ (∃ front back, ([0, 1, 2, 3, 4, 5, 6, 7] : List Nat) = front ++ back ∧
      front.length = ([0, 1, 2, 3, 4, 5, 6, 7] : List Nat).length / 2 ∧
      steal_jobs_td [9] [0, 1, 2, 3, 4, 5, 6, 7] = ([9] ++ back, front, true)) :=
  steal_moved_halves [9] [0, 1, 2, 3] [9] [0, 1, 2, 3, 4, 5, 6, 7]
    (by decide) (by decide)

/-- C6 counterexample: the claim requires the scan of a thief with index 0
out of 2 queues to examine exactly `[1]`, never the thief's own queue; the
engine's `steal_task` (mutex.cpp:170-207) examines `[0, 1]`, starting with the
thief's own queue 0. -/
theorem steal_task_scan_examines_own_cex :
    steal_task_scan 0 2 = [0, 1] ∧ 0 ∈ steal_task_scan 0 2 ∧
    steal_task_scan 0 2 ≠ [1] := by decide

/-- C6 (amended): the `queue` and `thread_data` variants scan candidate
victims in exactly the order `i+1, .., n-1, 0, .., i-1`, never examining the
thief's own queue and covering every other queue; the engine's `steal_task`
instead starts the scan *at* the thief's own index, examining the thief's
own queue as the first candidate. -/
theorem steal_scan_order (i n : Nat) (h : i < n) :
    steal_scan_queue i n = List.range' (i + 1) (n - (i + 1)) ++ List.range i
  ∧ steal_scan_td i n = steal_scan_queue i n
  ∧ i ∉ steal_scan_queue i n
  ∧ (∀ j, j < n → j ≠ i → j ∈ steal_scan_queue i n)
  ∧ (steal_task_scan i n).head? = some i := by
  refine ⟨rfl, rfl, ?_, ?_, ?_⟩
  · simp only [steal_scan_queue, List.mem_append, List.mem_range'_1, List.mem_range]
    omega
  · intro j hj hne
    simp only [steal_scan_queue, List.mem_append, List.mem_range'_1, List.mem_range]
    omega
  · cases n with
    | zero => omega
    | succ m =>
      simp only [steal_task_scan, List.range_succ_eq_map, List.map_cons, List.head?]
      rw [Nat.add_zero, Nat.mod_eq_of_lt h]

/-- C6 witness: the amended statement evaluated for thief index 1 of 3. -/
theorem steal_scan_order_witness :
    2 ∈ steal_scan_queue 1 3 ∧ 1 ∉ steal_scan_queue 1 3 ∧
    (steal_task_scan 1 3).head? = some 1 :=
  ⟨(steal_scan_order 1 3 (by decide)).2.2.2.1 2 (by decide) (by decide),
   (steal_scan_order 1 3 (by decide)).2.2.1,
   (steal_scan_order 1 3 (by decide)).2.2.2.2⟩

/-- C10: in all three variants, every successful steal leaves the victim's
FIFO non-empty, and the stolen jobs are a contiguous slice of the victim's
FIFO appended as-is (same relative order) to the back of the thief's FIFO. -/
theorem steal_success_properties
    (d₁ s₁ d₂ s₂ d₃ s₃ : List Nat)
    (h₁ : (steal_jobs_queue d₁ s₁).2.2 = true)
    (h₂ : (steal_jobs_td d₂ s₂).2.2 = true)
    (h₃ : (steal_task_transfer d₃ s₃).2.2 = true) :
    ((steal_jobs_queue d₁ s₁).2.1 ≠ [] ∧
      ∃ stolen rest, s₁ = stolen ++ rest ∧
        (steal_jobs_queue d₁ s₁).1 = d₁ ++ stolen)
  ∧ ((steal_jobs_td d₂ s₂).2.1 ≠ [] ∧
      ∃ rest stolen, s₂ = rest ++ stolen ∧
        (steal_jobs_td d₂ s₂).1 = d₂ ++ stolen)
  ∧ ((steal_task_transfer d₃ s₃).2.1 ≠ [] ∧
      ∃ rest stolen, s₃ = rest ++ stolen ∧
        (steal_task_transfer d₃ s₃).1 = d₃ ++ stolen) := by
  have hc₁ : ¬ s₁.length < 2 := by
    intro hlt; simp [steal_jobs_queue, hlt] at h₁
  have hc₂ : ¬ s₂.length < 8 := by
    intro hlt; simp [steal_jobs_td, hlt] at h₂
  have hc₃ : ¬ s₃.length < 4 := by
    intro hlt; simp [steal_task_transfer, hlt] at h₃
  refine ⟨⟨?_, s₁.take (s₁.length / 2), s₁.drop (s₁.length / 2),
      (List.take_append_drop _ _).symm, ?_⟩,
    ⟨?_, s₂.take (s₂.length / 2), s₂.drop (s₂.length / 2),
      (List.take_append_drop _ _).symm, ?_⟩,
    ⟨?_, s₃.take (s₃.length - s₃.length / 2), s₃.drop (s₃.length - s₃.length / 2),
      (List.take_append_drop _ _).symm, ?_⟩⟩
  · simp only [steal_jobs_queue, if_neg hc₁]
    intro hnil
    have := congrArg List.length hnil
    simp only [List.length_drop, List.length_nil] at this
    omega
  · simp [steal_jobs_queue, if_neg hc₁]
  · simp only [steal_jobs_td, if_neg hc₂]
    intro hnil
    have := congrArg List.length hnil
    simp only [List.length_take, List.length_nil] at this
    omega
  · simp [steal_jobs_td, if_neg hc₂]
  · simp only [steal_task_transfer, if_neg hc₃]
    intro hnil
    have := congrArg List.length hnil
    simp only [List.length_take, List.length_nil] at this
    omega
  · simp [steal_task_transfer, if_neg hc₃]

/-- C10 witness: the property evaluated on concrete victims meeting each
variant's threshold. -/
theorem steal_success_properties_witness :
    ((steal_jobs_queue [] [0, 1]).2.1 ≠ [] ∧
      ∃ stolen rest, ([0, 1] : List Nat) = stolen ++ rest ∧
        (steal_jobs_queue [] [0, 1]).1 = [] ++ stolen)
  ∧ ((steal_jobs_td [] [0, 1, 2, 3, 4, 5, 6, 7]).2.1 ≠ [] ∧
      ∃ rest stolen, ([0, 1, 2, 3, 4, 5, 6, 7] : List Nat) = rest ++ stolen ∧
        (steal_jobs_td [] [0, 1, 2, 3, 4, 5, 6, 7]).1 = [] ++ stolen)
  ∧ ((steal_task_transfer [] [0, 1, 2, 3]).2.1 ≠ [] ∧
      ∃ rest stolen, ([0, 1, 2, 3] : List Nat) = rest ++ stolen ∧
        (steal_task_transfer [] [0, 1, 2, 3]).1 = [] ++ stolen) :=
  steal_success_properties [] [0, 1] [] [0, 1, 2, 3, 4, 5, 6, 7] [] [0, 1, 2, 3]
    (by decide) (by decide) (by decide)

/-! ## The thread-local locked-mutex table (mutex.cpp / deadlock_free_mutex)

The table is a `std::multiset` of mutex addresses ordered by `<`, modelled as
an address-sorted `List Nat`.  The underlying lock of `deadlock_free_mutex` is
a `std::recursive_mutex`; the calling thread's acquisition depth on each
underlying lock is modelled as a function `Nat → Int`. -/

/-- `multiset::insert`: insert an address into the ordered table. -/
def lmt_insert (t : List Nat) (a : Nat) : List Nat :=
  t.orderedInsert (· ≤ ·) a

/-- `mutex::unlock` / `deadlock_free_mutex::unlock` (mutex.cpp:99-102,
executor.cpp:464-467): `get_locked_mutex_table().erase(this)` — erase *by
key*, which removes every entry equal to this address from the multiset. -/
def lmt_unlock_erase (t : List Nat) (a : Nat) : List Nat :=
  t.filter (fun x => x != a)

/-- The table effect of `mutex::lock` / `deadlock_free_mutex::lock`: both the
fast path (try_lock succeeded) and the contended path insert exactly one entry
for this address (mutex.cpp:75, executor.cpp:440 and 449). -/
def lmt_lock_insert (t : List Nat) (a : Nat) : List Nat :=
  lmt_insert t a

/-- The "above" set: the entries that follow the just-inserted entry in the
ordered multiset, i.e. all held entries with an address strictly greater than
the pivot (the iteration `std::next(it) .. end()`). -/
def above_entries (t : List Nat) (a : Nat) : List Nat :=
  t.filter (fun x => a < x)

/-- Release each lock of the list once: `(*it1)->m_mutex.unlock()` over the
above-set. -/
def unlock_each (h : Nat → Int) (l : List Nat) : Nat → Int :=
  l.foldl (fun g e => Function.update g e (g e - 1)) h

/-- Re-acquire each lock of the list once: `(*it1)->m_mutex.lock()` over the
above-set. -/
def lock_each (h : Nat → Int) (l : List Nat) : Nat → Int :=
  l.foldl (fun g e => Function.update g e (g e + 1)) h

/-- Thread-local view used by `mutex::try_lock`: the ordered table and the
underlying acquisition depths of this thread. -/
structure MutexThreadState where
  table : List Nat
  held : Nat → Int

/-- `mutex::try_lock` (mutex.cpp:30-67; same structure as
`deadlock_free_mutex::try_lock`, executor.cpp:389-429 up to the position of
the first insert).  `r1` and `r2` are the outcomes of the two underlying
`m_mutex.try_lock` attempts on the pivot (they depend on the concurrent
environment).  Insert the pivot into the table; on first success return true.
Otherwise unlock every entry above the pivot, retry the pivot; on failure
re-lock the above-set, erase the inserted entry and return false; on success
re-lock the above-set and return true. -/
def mutex_try_lock (s : MutexThreadState) (a : Nat) (r1 r2 : Bool) :
    MutexThreadState × Bool :=
  let t1 := lmt_insert s.table a
  if r1 then
    ({ table := t1, held := Function.update s.held a (s.held a + 1) }, true)
  else
    let ab := above_entries t1 a
    let h1 := unlock_each s.held ab
    if r2 then
      ({ table := t1,
         held := lock_each (Function.update h1 a (h1 a + 1)) ab }, true)
    else
      ({ table := t1.erase a, held := lock_each h1 ab }, false)

/-! ## Round-robin dispatch (C7) -/

/-- Wrap-around modulus of `std::atomic<size_t>::fetch_add` (64-bit size_t). -/
def size_t_mod : Nat := 2 ^ 64

/-- The counter value fetched by the i-th submission after the counter held
`c0`: `m_next_queue_index.fetch_add(1)` / `curr_thread.fetch_add(1)` wraps
modulo `2^64`. -/
def counter_value (c0 i : Nat) : Nat := (c0 + i) % size_t_mod

/-- The queue targeted by the i-th submission (executor.hpp:45-70,
mutex.cpp:344-350): the fetched counter value modulo the queue count. -/
def dispatch (c0 n i : Nat) : Nat := counter_value c0 i % n

/-! ## Claims C3, C5: the locked-mutex table -/

/-- C3 counterexample: after two re-entrant acquisitions of the mutex at
address 7 (each `lock` inserts one entry) a single `unlock` leaves 0 entries
for that address in the table, not the `k - 1 = 1` entry the claim requires:
`multiset::erase(key)` erases every entry with that key. -/
theorem unlock_erases_all_cex :
    (lmt_unlock_erase (lmt_lock_insert (lmt_lock_insert [] 7) 7) 7).count 7 ≠ 2 - 1 ∧
    (lmt_unlock_erase (lmt_lock_insert (lmt_lock_insert [] 7) 7) 7).count 7 = 0 := by
  decide

/-- C3 (amended): `unlock` erases *every* entry for this mutex's address from
the thread's locked-mutex table (so after k re-entrant acquisitions and one
unlock, 0 entries remain for it), while entries for other addresses are
untouched. -/
theorem unlock_erases_all (t : List Nat) (a b : Nat) (hba : b ≠ a) :
    (lmt_unlock_erase t a).count a = 0 ∧
    (lmt_unlock_erase t a).count b = t.count b := by
  constructor
  · rw [List.count_eq_zero]
    simp [lmt_unlock_erase, List.mem_filter]
  · induction t with
    | nil => rfl
    | cons x xs ih =>
      rcases eq_or_ne x a with rfl | hx
      · have hstep : lmt_unlock_erase (x :: xs) x = lmt_unlock_erase xs x := by
          simp [lmt_unlock_erase]
        rw [hstep, ih, List.count_cons_of_ne hba]
      · have hstep : lmt_unlock_erase (x :: xs) a = x :: lmt_unlock_erase xs a := by
          simp [lmt_unlock_erase, hx]
        rw [hstep, List.count_cons, List.count_cons, ih]

/-- C3 witness: the amended statement on the table `[3, 7, 7]`. -/
theorem unlock_erases_all_witness :
    (lmt_unlock_erase [3, 7, 7] 7).count 7 = 0 ∧
    (lmt_unlock_erase [3, 7, 7] 7).count 3 = ([3, 7, 7] : List Nat).count 3 :=
  unlock_erases_all [3, 7, 7] 7 3 (by decide)

/-- Applying `lock_each` adds 1 to the held depth of an address once per
occurrence in the list. -/
theorem lock_each_apply (l : List Nat) (h : Nat → Int) (x : Nat) :
    lock_each h l x = h x + (l.count x : Int) := by
  induction l generalizing h with
  | nil => simp [lock_each]
  | cons e es ih =>
    rw [lock_each, List.foldl_cons, ← lock_each, ih]
    rcases eq_or_ne x e with rfl | hne
    · rw [Function.update_same, List.count_cons_self]
      push_cast
      ring
    · rw [Function.update_noteq hne, List.count_cons_of_ne hne]

/-- Applying `unlock_each` subtracts 1 from the held depth of an address once
per occurrence in the list. -/
theorem unlock_each_apply (l : List Nat) (h : Nat → Int) (x : Nat) :
    unlock_each h l x = h x - (l.count x : Int) := by
  induction l generalizing h with
  | nil => simp [unlock_each]
  | cons e es ih =>
    rw [unlock_each, List.foldl_cons, ← unlock_each, ih]
    rcases eq_or_ne x e with rfl | hne
    · rw [Function.update_same, List.count_cons_self]
      push_cast
      ring
    · rw [Function.update_noteq hne, List.count_cons_of_ne hne]

/-- Counting in the ordered table after an insert. -/
theorem lmt_insert_count (t : List Nat) (a x : Nat) :
    (lmt_insert t a).count x = (a :: t).count x :=
  (List.perm_orderedInsert _ a t).count_eq x

/-- The pivot does not occur in its own above-set. -/
theorem above_entries_count_self (t : List Nat) (a : Nat) :
    (above_entries t a).count a = 0 := by
  rw [List.count_eq_zero]
  simp [above_entries, List.mem_filter]

/-- C5: `mutex::try_lock` — when it returns false the thread's locked-mutex
table and all underlying lock depths are exactly as before the call (the
inserted entry is erased and the above-set is re-locked); when it returns
true the table gains exactly one entry for this mutex, the underlying depth
of this mutex grows by one, and every other mutex's depth is unchanged. -/
theorem try_lock_exact (s : MutexThreadState) (a : Nat) (r1 r2 : Bool) :
    ((mutex_try_lock s a r1 r2).2 = false →
        (∀ x, (mutex_try_lock s a r1 r2).1.table.count x = s.table.count x) ∧
        (∀ x, (mutex_try_lock s a r1 r2).1.held x = s.held x))
  ∧ ((mutex_try_lock s a r1 r2).2 = true →
        (mutex_try_lock s a r1 r2).1.table.count a = s.table.count a + 1 ∧
        (∀ x, x ≠ a → (mutex_try_lock s a r1 r2).1.table.count x = s.table.count x) ∧
        (mutex_try_lock s a r1 r2).1.held a = s.held a + 1 ∧
        (∀ x, x ≠ a → (mutex_try_lock s a r1 r2).1.held x = s.held x)) := by
  cases r1 with
  | true =>
    refine ⟨fun hfalse => by simp [mutex_try_lock] at hfalse, fun _ => ?_⟩
    refine ⟨?_, fun x hx => ?_, ?_, fun x hx => ?_⟩
    · simp [mutex_try_lock, lmt_insert_count, List.count_cons_self]
    · simp [mutex_try_lock, lmt_insert_count, List.count_cons_of_ne hx]
    · simp [mutex_try_lock, Function.update_same]
    · simp [mutex_try_lock, Function.update_noteq hx]
  | false =>
    cases r2 with
    | true =>
      refine ⟨fun hfalse => by simp [mutex_try_lock] at hfalse, fun _ => ?_⟩
      refine ⟨?_, fun x hx => ?_, ?_, fun x hx => ?_⟩
      · simp [mutex_try_lock, lmt_insert_count, List.count_cons_self]
      · simp [mutex_try_lock, lmt_insert_count, List.count_cons_of_ne hx]
      · simp only [mutex_try_lock, reduceIte, Bool.false_eq_true, if_false]
        rw [lock_each_apply, Function.update_same, unlock_each_apply,
          above_entries_count_self]
        push_cast
        ring
      · simp only [mutex_try_lock, reduceIte, Bool.false_eq_true, if_false]
        rw [lock_each_apply, Function.update_noteq hx, unlock_each_apply]
        ring
    | false =>
      refine ⟨fun _ => ⟨fun x => ?_, fun x => ?_⟩,
        fun htrue => by simp [mutex_try_lock] at htrue⟩
      · simp only [mutex_try_lock, if_neg Bool.false_ne_true]
        rcases eq_or_ne x a with rfl | hx
        · rw [List.count_erase_self, lmt_insert_count, List.count_cons_self]
          omega
        · rw [List.count_erase_of_ne hx, lmt_insert_count,
            List.count_cons_of_ne hx]
      · simp only [mutex_try_lock, if_neg Bool.false_ne_true]
        rw [lock_each_apply, unlock_each_apply]
        ring

/-- C5 witness: the false branch of the exact statement on a concrete state
(table `[2, 9]`, both held once), pivot 5 contended twice. -/
theorem try_lock_exact_witness :
    (mutex_try_lock ⟨[2, 9], fun x => if x = 2 ∨ x = 9 then 1 else 0⟩
        5 false false).1.table.count 9 =
      (([2, 9] : List Nat).count 9) ∧
    (mutex_try_lock ⟨[2, 9], fun x => if x = 2 ∨ x = 9 then 1 else 0⟩
        5 false false).1.held 9 =
      (fun x : Nat => if x = 2 ∨ x = 9 then (1 : Int) else 0) 9 :=
  ⟨((try_lock_exact ⟨[2, 9], fun x => if x = 2 ∨ x = 9 then 1 else 0⟩
      5 false false).1 (by decide)).1 9,
   ((try_lock_exact ⟨[2, 9], fun x => if x = 2 ∨ x = 9 then 1 else 0⟩
      5 false false).1 (by decide)).2 9⟩

/-! ## Claim C7: round-robin dispatch -/

/-- C7 counterexample: with 3 queues and the round-robin counter at
`2^64 - 2`, the next three fetched values are `2^64 - 2`, `2^64 - 1` and `0`
(the fetch-add wraps), and the second and third submissions both target
queue 0 — three consecutive counter values do not dispatch to three distinct
queues across the wrap. -/
theorem round_robin_wrap_cex :
    dispatch (size_t_mod - 2) 3 1 = dispatch (size_t_mod - 2) 3 2 ∧
    (1 : Nat) ≠ 2 ∧ 1 < 3 ∧ 2 < 3 := by
  refine ⟨?_, by decide, by decide, by decide⟩
  norm_num [dispatch, counter_value, size_t_mod]

/-- C7 (amended): each submission targets queue `c % n` where `c` is the
fetched counter value; any `n` consecutive counter values that do not straddle
the `2^64` wrap-around dispatch to `n` distinct queues. -/
theorem round_robin_distinct (c0 n i j : Nat) (_hn : 0 < n)
    (hw : c0 + n ≤ size_t_mod) (hi : i < n) (hj : j < n) (hij : i ≠ j) :
    dispatch c0 n i = (c0 + i) % size_t_mod % n ∧
    dispatch c0 n i ≠ dispatch c0 n j := by
  refine ⟨rfl, fun heq => hij ?_⟩
  have hvi : counter_value c0 i = c0 + i := Nat.mod_eq_of_lt (by omega)
  have hvj : counter_value c0 j = c0 + j := Nat.mod_eq_of_lt (by omega)
  rw [dispatch, dispatch, hvi, hvj] at heq
  have hmod : i ≡ j [MOD n] :=
    Nat.ModEq.add_left_cancel (Nat.ModEq.refl c0) heq
  rw [Nat.ModEq, Nat.mod_eq_of_lt hi, Nat.mod_eq_of_lt hj] at hmod
  exact hmod

/-- C7 witness: three consecutive submissions starting at counter value 5
with 3 queues hit distinct queues. -/
theorem round_robin_distinct_witness :
    dispatch 5 3 0 = (5 + 0) % size_t_mod % 3 ∧ dispatch 5 3 0 ≠ dispatch 5 3 1 :=
  round_robin_distinct 5 3 0 1 (by decide) (by norm_num [size_t_mod])
    (by decide) (by decide) (by decide)

/-! ## Claim C2: job deallocation after execution

A job carries its size and a back-pointer to the queue whose pool allocated
it (`executor_internals::job`, executor_internals.hpp).  The two delete paths
are traced as event lists. -/

/-- A pool-allocated job: owning-queue index and allocation size. -/
structure job where
  owner : Nat
  size : Nat
deriving DecidableEq

/-- Events of a delete path: acquiring/releasing a queue's mutex, running the
job's destructor, returning memory to a queue's pool. -/
inductive MEvent where
  | lock (q : Nat)
  | unlock (q : Nat)
  | destroy
  | dealloc (q : Nat) (size : Nat)
deriving DecidableEq

/-- `executor_internals::job::delete_this` (mutex.cpp:361-374): read size and
owning queue, run the destructor, then under the *owning* queue's mutex
deallocate from the owning queue's pool. -/
def delete_this (j : job) : List MEvent :=
  [MEvent.destroy, MEvent.lock j.owner, MEvent.dealloc j.owner j.size,
   MEvent.unlock j.owner]

/-- `executor::queue::delete_job` (executor.cpp:71-75) as called from the
worker loop (executor.cpp:225-228): `q` is the *executing worker's* queue
(`q->delete_job(j)` with the queue mutex already released); the destructor
runs and the memory is returned to `q`'s pool with no mutex held. -/
def queue_delete_job (q : Nat) (j : job) : List MEvent :=
  [MEvent.destroy, MEvent.dealloc q j.size]

/-- `executor::delete_job` (executor_internals_private.hpp:214-226): read the
owner and size, run the destructor, then deallocate from the owner's pool
under the owner's mutex. -/
def internals_delete_job (j : job) : List MEvent :=
  [MEvent.destroy, MEvent.lock j.owner, MEvent.dealloc j.owner j.size,
   MEvent.unlock j.owner]

/-- Checks a delete-path trace against the claimed invariant: every
deallocation returns the memory to the owner's pool and occurs while the
owner's mutex is held (`d` tracks the held depth of the owner's mutex). -/
def deallocs_via_owner : List MEvent → Nat → Nat → Bool
  | [], _, _ => true
  | MEvent.lock q :: r, o, d => deallocs_via_owner r o (if q = o then d + 1 else d)
  | MEvent.unlock q :: r, o, d => deallocs_via_owner r o (if q = o then d - 1 else d)
  | MEvent.destroy :: r, o, d => deallocs_via_owner r o d
  | MEvent.dealloc q _ :: r, o, d =>
      decide (q = o) && decide (0 < d) && deallocs_via_owner r o d

/-- C2: a job owned by queue 1 but executed by the worker of queue 0 (after a
steal).  The `delete_this` and `executor::delete_job` paths deallocate it
through queue 1's pool under queue 1's mutex, as the claim states; the
`queue::delete_job` path of executor.cpp instead returns the memory to
queue 0's pool with no mutex held, violating the claim. -/
theorem stolen_job_dealloc_bug :
    deallocs_via_owner (delete_this ⟨1, 32⟩) 1 0 = true ∧
    deallocs_via_owner (internals_delete_job ⟨1, 32⟩) 1 0 = true ∧
    queue_delete_job 0 ⟨1, 32⟩ = [MEvent.destroy, MEvent.dealloc 0 32] ∧
    deallocs_via_owner (queue_delete_job 0 ⟨1, 32⟩) 1 0 = false := by
  decide

/-! ## Claim C4: teardown of remaining jobs -/

/-- Per-job teardown events: a job's callable is invoked, or its destructor
runs. -/
inductive TEvent where
  | invoke (j : Nat)
  | destroyJob (j : Nat)
deriving DecidableEq

/-- `cleanup` (mutex.cpp:310-334), after the stop flags are set and every
thread is joined: for each thread, every task still in its queue is deleted —
its destructor runs — and none is executed. -/
def cleanup_remaining (queues : List (List Nat)) : List TEvent :=
  (queues.map (fun q => q.map TEvent.destroyJob)).flatten

/-- `executor::~executor` (executor.cpp:274-287), after every worker thread is
stopped, joined and deleted: each `queue` object is deleted.  `~queue`
destroys the deque of job *pointers* and releases the memory pool wholesale;
no remaining job's destructor or `invoke` is ever called, so the teardown
emits no per-job event. -/
def executor_dtor_remaining (queues : List (List Nat)) : List TEvent :=
  []

/-- C4 counterexample: one job (id 5) left in the single queue at teardown.
The claim requires it to be destroyed; the executor.cpp destructor emits no
destruction for it (the engine's `cleanup` does). -/
theorem executor_dtor_no_destroy_cex :
    TEvent.destroyJob 5 ∉ executor_dtor_remaining [[5]] ∧
    TEvent.destroyJob 5 ∈ cleanup_remaining [[5]] := by
  decide

/-- C4 (amended): at teardown, after stop and join, no remaining job is ever
invoked in either variant; the engine's `cleanup` additionally destroys every
remaining job, while the executor.cpp destructor destroys none of them (their
destructors never run; only the pooled memory is released). -/
theorem teardown_no_invoke (queues : List (List Nat)) (j : Nat)
    (hj : j ∈ queues.flatten) :
    TEvent.invoke j ∉ cleanup_remaining queues ∧
    TEvent.invoke j ∉ executor_dtor_remaining queues ∧
    TEvent.destroyJob j ∈ cleanup_remaining queues ∧
    executor_dtor_remaining queues = [] := by
  refine ⟨?_, by simp [executor_dtor_remaining], ?_, rfl⟩
  · intro hmem
    rw [cleanup_remaining, List.mem_flatten] at hmem
    obtain ⟨l, hl, hev⟩ := hmem
    rw [List.mem_map] at hl
    obtain ⟨q, _, rfl⟩ := hl
    rw [List.mem_map] at hev
    obtain ⟨x, _, hx⟩ := hev
    exact TEvent.noConfusion hx
  · rw [List.mem_flatten] at hj
    obtain ⟨q, hq, hjq⟩ := hj
    rw [cleanup_remaining, List.mem_flatten]
    exact ⟨q.map TEvent.destroyJob, List.mem_map_of_mem _ hq,
      List.mem_map_of_mem _ hjq⟩

/-- C4 witness: the amended statement for job 5 pending in the only queue. -/
theorem teardown_no_invoke_witness :
    TEvent.invoke 5 ∉ cleanup_remaining [[5]] ∧
    TEvent.invoke 5 ∉ executor_dtor_remaining [[5]] ∧
    TEvent.destroyJob 5 ∈ cleanup_remaining [[5]] ∧
    executor_dtor_remaining [[5]] = [] :=
  teardown_no_invoke [[5]] 5 (by decide)

/-! ## Claim C8: release_current_worker_thread

Worker threads are identified by natural numbers.  The thread-local
`current_worker_thread` slot is an `Option Nat` (`none` on a non-worker
thread).  The executor state holds each worker's atomic queue pointer, the
two worker vectors and a fresh id for `new worker_thread`. -/

/-- The executor state touched by `release_current_worker_thread`. -/
structure ExecutorState where
  workerQueue : Nat → Option Nat
  workerThreads : List Nat
  releasedWorkerThreads : List Nat
  nextWorkerId : Nat

/-- `executor::release_current_worker_thread` (executor.cpp:291-324): if the
calling thread is not a worker (`current_worker_thread == nullptr`), throw a
`std::logic_error` before touching any state.  Otherwise read the current
worker's queue pointer, null it, and under the worker-pool mutex either wake
the most recently released worker (`back()` + `pop_back()`) and hand it the
queue, or construct a new worker bound to the queue; finally push the current
worker onto the released list. -/
def release_current_worker_thread (cw : Option Nat) (st : ExecutorState) :
    ExecutorState × Except String Unit :=
  match cw with
  | none =>
      (st, Except.error "the current thread is not an executor worker thread")
  | some w =>
    let q := st.workerQueue w
    let st1 := { st with workerQueue := Function.update st.workerQueue w none }
    match st1.releasedWorkerThreads.getLast? with
    | some r =>
      ({ st1 with
          releasedWorkerThreads := st1.releasedWorkerThreads.dropLast ++ [w],
          workerQueue := Function.update st1.workerQueue r q }, Except.ok ())
    | none =>
      ({ st1 with
          workerQueue := Function.update st1.workerQueue st1.nextWorkerId q,
          workerThreads := st1.workerThreads ++ [st1.nextWorkerId],
          nextWorkerId := st1.nextWorkerId + 1,
          releasedWorkerThreads := st1.releasedWorkerThreads ++ [w] },
       Except.ok ())

/-- C8: called on a thread whose current-worker slot is unset,
`release_current_worker_thread` fails with the logic error and returns the
executor state untouched; called from within a running job (current-worker
slot set) it succeeds without an error. -/
theorem release_current_worker_spec (cw : Option Nat) (st : ExecutorState) :
    (cw = none →
      release_current_worker_thread cw st =
        (st, Except.error "the current thread is not an executor worker thread"))
  ∧ (∀ w, cw = some w →
      (release_current_worker_thread cw st).2 = Except.ok ()) := by
  constructor
  · intro h
    subst h
    rfl
  · intro w h
    subst h
    rw [release_current_worker_thread]
    cases ({ st with
        workerQueue := Function.update st.workerQueue w none } :
          ExecutorState).releasedWorkerThreads.getLast? with
    | none => rfl
    | some r => rfl

/-- C8 witness: the statement on a one-worker executor, called once from a
non-worker thread and once from worker 0. -/
theorem release_current_worker_spec_witness :
    release_current_worker_thread none ⟨fun _ => none, [0], [], 1⟩ =
      (⟨fun _ => none, [0], [], 1⟩,
       Except.error "the current thread is not an executor worker thread") ∧
    (release_current_worker_thread (some 0)
      ⟨fun _ => none, [0], [], 1⟩).2 = Except.ok () :=
  ⟨(release_current_worker_spec none ⟨fun _ => none, [0], [], 1⟩).1 rfl,
   (release_current_worker_spec (some 0) ⟨fun _ => none, [0], [], 1⟩).2 0 rfl⟩

/-! ## Claim C9: a worker with a null queue pointer pops from no queue

Small-step model of `executor::worker_thread::run` (executor.cpp:179-250).
Only the worker itself nulls its own `m_queue` (inside a job that calls
`release_current_worker_thread`); other threads may only set it from null to
a queue (when installing a replacement) and may set the stop flag. -/

/-- Program points of the worker loop: the `m_queue` load at the top of the
outer loop; the drain/wait loop holding a queue's mutex (`stole` records
whether the single steal attempt of this lock acquisition already happened);
executing a popped job; the suspend loop; and loop exit. -/
inductive WPC where
  | top
  | drain (q : Nat) (stole : Bool)
  | exec (q : Nat)
  | suspended
  | halted
deriving DecidableEq

/-- Observable action of one worker step. -/
inductive WEvent where
  | pop (q : Nat)
  | steal (q : Nat)
  | waitQueue (q : Nat)
  | waitSuspend
  | exited
  | tick
deriving DecidableEq

/-- Worker-local state: program point, the atomic `m_queue` pointer, the
atomic `m_stop` flag. -/
structure WState where
  pc : WPC
  mqueue : Option Nat
  stop : Bool
deriving DecidableEq

/-- External inputs to one step: whether `q->m_jobs.empty()` reads true,
whether the executed job calls `release_current_worker_thread` (nulling this
worker's pointer), a queue installed by another thread's release call
(effective only while the pointer is null), and whether `stop()` ran. -/
structure WEnv where
  queueEmpty : Bool
  release : Bool
  install : Option Nat
  setStop : Bool

/-- Concurrent writes visible at the start of a step. -/
def wenvApply (s : WState) (e : WEnv) : WState :=
  { pc := s.pc
    mqueue := match s.mqueue with
              | none => e.install
              | some q => some q
    stop := s.stop || e.setStop }

/-- One step of the worker loop (executor.cpp:186-249): at the top, load
`m_queue`; with a queue, lock it, steal once if it is empty, then while it
stays empty check stop, check the nulled pointer (goto SUSPEND), else wait on
the queue CV; when non-empty pop the front job and execute it (the job may
release this worker); with no queue, loop checking stop and waiting on the
suspend CV until a queue is installed. -/
def wstep (s0 : WState) (e : WEnv) : WState × WEvent :=
  let s := wenvApply s0 e
  match s.pc with
  | WPC.top =>
      match s.mqueue with
      | some q => ({ s with pc := WPC.drain q false }, WEvent.tick)
      | none => ({ s with pc := WPC.suspended }, WEvent.tick)
  | WPC.drain q stole =>
      if e.queueEmpty then
        if stole then
          if s.stop then ({ s with pc := WPC.halted }, WEvent.exited)
          else
            match s.mqueue with
            | none => ({ s with pc := WPC.suspended }, WEvent.tick)
            | some _ => ({ s with pc := WPC.drain q true }, WEvent.waitQueue q)
        else ({ s with pc := WPC.drain q true }, WEvent.steal q)
      else ({ s with pc := WPC.exec q }, WEvent.pop q)
  | WPC.exec _ =>
      ({ pc := WPC.top,
         mqueue := if e.release then none else s.mqueue,
         stop := s.stop }, WEvent.tick)
  | WPC.suspended =>
      if s.stop then ({ s with pc := WPC.halted }, WEvent.exited)
      else
        match s.mqueue with
        | some _ => ({ s with pc := WPC.top }, WEvent.tick)
        | none => (s, WEvent.waitSuspend)
  | WPC.halted => (s, WEvent.tick)

/-- The state of a worker when its thread starts: servicing its construction
queue, not stopped. -/
def winit (q0 : Nat) : WState :=
  { pc := WPC.top, mqueue := some q0, stop := false }

/-- States the worker loop can reach from its start, under arbitrary
interleavings of job pushes, steals, releases and stop signals. -/
inductive WReachable : WState → Prop where
  | init (q0 : Nat) : WReachable (winit q0)
  | step (s : WState) (e : WEnv) : WReachable s → WReachable (wstep s e).1

/-- Loop invariant: while the worker is inside the drain/wait loop of queue
`q`, or executing a job popped from `q`, its queue pointer reads `some q`. -/
def winv : WState → Prop
  | ⟨WPC.drain q _, mq, _⟩ => mq = some q
  | ⟨WPC.exec q, mq, _⟩ => mq = some q
  | _ => True

/-- `winv` is preserved by every step under every environment. -/
theorem winv_step (s : WState) (e : WEnv) (h : winv s) : winv (wstep s e).1 := by
  rcases s with ⟨pc, mq, st⟩
  rcases e with ⟨qe, rel, inst, sstop⟩
  cases pc with
  | top =>
    cases mq with
    | some q => exact rfl
    | none =>
      cases inst with
      | none => exact trivial
      | some q => exact rfl
  | drain q b =>
    cases h
    cases qe with
    | false => exact rfl
    | true =>
      cases b with
      | false => exact rfl
      | true =>
        cases st <;> cases sstop <;> first
          | exact trivial
          | exact rfl
  | exec q =>
    cases h
    cases rel <;> exact trivial
  | suspended =>
    cases st <;> cases sstop <;> cases mq <;>
      first
        | exact trivial
        | cases inst <;> exact trivial
  | halted => exact trivial

/-- Every reachable worker state satisfies the loop invariant. -/
theorem wreachable_winv (s : WState) (h : WReachable s) : winv s := by
  induction h with
  | init q0 => exact trivial
  | step s e _ ih => exact winv_step s e ih

/-- C9: from any reachable worker state whose queue pointer reads null, the
next step pops from no queue and steals from no queue — until the pointer is
re-set the worker only finishes in-flight bookkeeping, waits on its suspend
condition variable, or exits on stop. -/
theorem worker_null_queue_no_pop (s : WState) (e : WEnv) (hr : WReachable s)
    (hn : s.mqueue = none) :
    (∀ q, (wstep s e).2 ≠ WEvent.pop q) ∧
    (∀ q, (wstep s e).2 ≠ WEvent.steal q) := by
  have hinv := wreachable_winv s hr
  rcases s with ⟨pc, mq, st⟩
  cases hn
  rcases e with ⟨qe, rel, inst, sstop⟩
  cases pc with
  | top =>
    cases inst <;>
      exact ⟨fun q hq => WEvent.noConfusion hq, fun q hq => WEvent.noConfusion hq⟩
  | drain q b => exact Option.noConfusion hinv
  | exec q => exact Option.noConfusion hinv
  | suspended =>
    cases st <;> cases sstop <;> cases inst <;>
      exact ⟨fun q hq => WEvent.noConfusion hq, fun q hq => WEvent.noConfusion hq⟩
  | halted =>
    exact ⟨fun q hq => WEvent.noConfusion hq, fun q hq => WEvent.noConfusion hq⟩

/-- C9 witness: a worker of queue 0 pops a job (step 2), the job releases the
worker (step 3, nulling the pointer); the next step of the released worker is
not a pop. -/
theorem worker_null_queue_no_pop_witness :
    (wstep (wstep (wstep (wstep (winit 0)
        ⟨false, false, none, false⟩).1
        ⟨false, false, none, false⟩).1
        ⟨false, true, none, false⟩).1
        ⟨false, false, none, false⟩).2 ≠ WEvent.pop 0 :=
  (worker_null_queue_no_pop
    (wstep (wstep (wstep (winit 0)
        ⟨false, false, none, false⟩).1
        ⟨false, false, none, false⟩).1
        ⟨false, true, none, false⟩).1
    ⟨false, false, none, false⟩
    (WReachable.step _ _ (WReachable.step _ _ (WReachable.step _ _
      (WReachable.init 0))))
    rfl).1 0

end Execlib
